import Mathlib

/-!
# Verification of the task-management board's core logic

Shallow embedding of the recurring-task generator, the task update /
reorder / archive / restore request handlers, and the department
membership operations of the repository, together with proofs of the
stated behavioural properties.

Timestamps and dates are modelled at day granularity as civil dates,
with the calendar normalization performed by the JavaScript Date object
(day and month overflow carrying into the following month and year).
-/

/-- A civil date.  `month` is 0-based (0 = January, 11 = December), as in
JavaScript, and `day` is 1-based. -/
structure CivilDate where
  year : Nat
  month : Nat
  day : Nat
deriving DecidableEq, Repr

/-- Gregorian leap-year rule. -/
def isLeapYear (y : Nat) : Bool :=
  (y % 4 == 0 && y % 100 != 0) || y % 400 == 0

/-- Number of days of month `m` (0-based) of year `y`.  Months outside
0..11 never arise on normalized dates; they default to 31. -/
def daysInMonth (y m : Nat) : Nat :=
  match m with
  | 0 => 31
  | 1 => if isLeapYear y then 29 else 28
  | 2 => 31
  | 3 => 30
  | 4 => 31
  | 5 => 30
  | 6 => 31
  | 7 => 31
  | 8 => 30
  | 9 => 31
  | 10 => 30
  | _ => 31

theorem one_le_daysInMonth (y m : Nat) : 1 ≤ daysInMonth y m := by
  unfold daysInMonth
  split <;> first
    | omega
    | (split <;> omega)

/-- Fuel-indexed worker for day-of-month normalization.  Each carry
shrinks the day by at least one, so a fuel equal to the starting day is
always sufficient. -/
def normDateAux (fuel : Nat) (y m day : Nat) : CivilDate :=
  match fuel with
  | 0 => ⟨y, m, day⟩
  | fuel + 1 =>
      if day ≤ daysInMonth y m then ⟨y, m, day⟩
      else if m < 11 then normDateAux fuel y (m + 1) (day - daysInMonth y m)
      else normDateAux fuel (y + 1) 0 (day - daysInMonth y m)

/-- Normalization of a day-of-month overflow, as performed internally by
the JavaScript Date object: while the day exceeds the month's length,
carry into the following month (and year). -/
def normDate (y m day : Nat) : CivilDate :=
  normDateAux day y m day

/-- Any sufficient fuel computes the normalization. -/
theorem normDateAux_fuel :
    ∀ day f y m, day ≤ f → normDateAux f y m day = normDate y m day := by
  intro day
  induction day using Nat.strong_induction_on with
  | _ day ih =>
    intro f y m hday
    match f with
    | 0 =>
      have h0 : day = 0 := by omega
      subst h0
      rfl
    | g + 1 =>
      cases day with
      | zero =>
        rw [normDate]
        simp [normDateAux]
      | succ d =>
        rw [normDate]
        simp only [normDateAux]
        by_cases hb : d + 1 ≤ daysInMonth y m
        · rw [if_pos hb, if_pos hb]
        · rw [if_neg hb, if_neg hb]
          have hd1 : 1 ≤ daysInMonth y m := one_le_daysInMonth y m
          have hlt : d + 1 - daysInMonth y m < d + 1 := by omega
          have hg : d + 1 - daysInMonth y m ≤ g := by omega
          have hd : d + 1 - daysInMonth y m ≤ d := by omega
          by_cases hm : m < 11
          · rw [if_pos hm, if_pos hm, ih _ hlt g y (m + 1) hg,
              ih _ hlt d y (m + 1) hd]
          · rw [if_neg hm, if_neg hm, ih _ hlt g (y + 1) 0 hg,
              ih _ hlt d (y + 1) 0 hd]

/-- The defining recurrence of the normalization. -/
theorem normDate_eq (y m day : Nat) :
    normDate y m day =
      if day ≤ daysInMonth y m then ⟨y, m, day⟩
      else if m < 11 then normDate y (m + 1) (day - daysInMonth y m)
      else normDate (y + 1) 0 (day - daysInMonth y m) := by
  cases day with
  | zero =>
    rw [normDate]
    simp [normDateAux]
  | succ d =>
    by_cases hb : d + 1 ≤ daysInMonth y m
    · rw [if_pos hb, normDate]
      simp only [normDateAux]
      rw [if_pos hb]
    · rw [if_neg hb]
      have hd1 : 1 ≤ daysInMonth y m := one_le_daysInMonth y m
      have hd : d + 1 - daysInMonth y m ≤ d := by omega
      by_cases hm : m < 11
      · rw [if_pos hm, normDate]
        simp only [normDateAux]
        rw [if_neg hb, if_pos hm, normDateAux_fuel _ d y (m + 1) hd]
      · rw [if_neg hm, normDate]
        simp only [normDateAux]
        rw [if_neg hb, if_neg hm, normDateAux_fuel _ d (y + 1) 0 hd]

/-- The day after a given (normalized) civil date. -/
def nextDay (d : CivilDate) : CivilDate :=
  if d.day < daysInMonth d.year d.month then ⟨d.year, d.month, d.day + 1⟩
  else if d.month < 11 then ⟨d.year, d.month + 1, 1⟩
  else ⟨d.year + 1, 0, 1⟩

/-- Shifting a civil date by `n` days: `n`-fold iteration of `nextDay`.
This is the specification-side notion of "plus n days". -/
def addDays (n : Nat) (d : CivilDate) : CivilDate :=
  nextDay^[n] d

/-- `date.setDate(date.getDate() + n)` of the JavaScript Date object:
set the day-of-month to `day + n` and normalize the overflow. -/
def setDatePlus (d : CivilDate) (n : Nat) : CivilDate :=
  normDate d.year d.month (d.day + n)

/-- `date.setMonth(date.getMonth() + 1)` of the JavaScript Date object:
increment the month, carrying into the year, then normalize a
day-of-month overflow against the new month. -/
def setMonthPlusOne (d : CivilDate) : CivilDate :=
  if d.month + 1 ≤ 11 then normDate d.year (d.month + 1) d.day
  else normDate (d.year + 1) 0 d.day

/-- Embedding of `calculateNextDueDate` (recurrence processing route):
a switch on the recurrence type, shifting the due date with the
JavaScript Date mutators; unknown types return the input unchanged. -/
def calculateNextDueDate (d : CivilDate) (recurrenceType : String) : CivilDate :=
  match recurrenceType with
  | "daily" => setDatePlus d 1
  | "weekly" => setDatePlus d 7
  | "biweekly" => setDatePlus d 14
  | "monthly" => setMonthPlusOne d
  | _ => d

/-- Specification-side notion of "plus one calendar month": advance the
month index by one (carrying into the year), keeping the day-of-month,
with a day overflow rolled into the following month. -/
def specAddOneMonth (d : CivilDate) : CivilDate :=
  normDate (d.year + (d.month + 1) / 12) ((d.month + 1) % 12) d.day

/-- A well-formed civil date: day within the month, month within the year. -/
def ValidDate (d : CivilDate) : Prop :=
  1 ≤ d.day ∧ d.day ≤ daysInMonth d.year d.month ∧ d.month ≤ 11

instance (d : CivilDate) : Decidable (ValidDate d) := by
  unfold ValidDate
  infer_instance

theorem normDate_base (y m day : Nat) (h : day ≤ daysInMonth y m) :
    normDate y m day = ⟨y, m, day⟩ := by
  rw [normDate_eq, if_pos h]

/-- One added day commutes with normalization: normalizing `k + 1` is
the successor day of normalizing `k`. -/
theorem normDate_succ (k : Nat) (y m : Nat) (hk : 1 ≤ k) :
    normDate y m (k + 1) = nextDay (normDate y m k) := by
  induction k using Nat.strong_induction_on generalizing y m with
  | _ k ih =>
    by_cases h1 : k + 1 ≤ daysInMonth y m
    · have h0 : k ≤ daysInMonth y m := by omega
      rw [normDate_base y m (k + 1) h1, normDate_base y m k h0]
      rw [nextDay]
      simp only
      rw [if_pos (by omega : k < daysInMonth y m)]
    · by_cases h2 : k ≤ daysInMonth y m
      · have heq : k = daysInMonth y m := by omega
        rw [normDate_base y m k h2]
        rw [normDate_eq, if_neg h1]
        rw [nextDay]
        simp only
        rw [if_neg (by omega : ¬ k < daysInMonth y m)]
        by_cases h3 : m < 11
        · rw [if_pos h3]
          have hone : k + 1 - daysInMonth y m = 1 := by omega
          rw [hone, normDate_base y (m + 1) 1 (one_le_daysInMonth y (m + 1))]
          rw [if_pos h3]
        · rw [if_neg h3]
          have hone : k + 1 - daysInMonth y m = 1 := by omega
          rw [hone, normDate_base (y + 1) 0 1 (one_le_daysInMonth (y + 1) 0)]
          rw [if_neg h3]
      · have hlt : k - daysInMonth y m < k := by
          have := one_le_daysInMonth y m
          omega
        have hge : 1 ≤ k - daysInMonth y m := by omega
        have harith : k + 1 - daysInMonth y m = (k - daysInMonth y m) + 1 := by omega
        by_cases h3 : m < 11
        · have hL : normDate y m (k + 1) = normDate y (m + 1) (k + 1 - daysInMonth y m) := by
            rw [normDate_eq, if_neg h1, if_pos h3]
          have hR : normDate y m k = normDate y (m + 1) (k - daysInMonth y m) := by
            rw [normDate_eq, if_neg h2, if_pos h3]
          rw [hL, hR, harith]
          exact ih _ hlt y (m + 1) hge
        · have hL : normDate y m (k + 1) = normDate (y + 1) 0 (k + 1 - daysInMonth y m) := by
            rw [normDate_eq, if_neg h1, if_neg h3]
          have hR : normDate y m k = normDate (y + 1) 0 (k - daysInMonth y m) := by
            rw [normDate_eq, if_neg h2, if_neg h3]
          rw [hL, hR, harith]
          exact ih _ hlt (y + 1) 0 hge

/-- Normalizing `day + n` performs `n` successor-day steps on the
normalization of `day`. -/
theorem normDate_add (n y m day : Nat) (hday : 1 ≤ day) :
    normDate y m (day + n) = addDays n (normDate y m day) := by
  induction n with
  | zero => simp [addDays]
  | succ n ihn =>
    have h1 : day + (n + 1) = (day + n) + 1 := by omega
    rw [h1, normDate_succ (day + n) y m (by omega), ihn]
    rw [addDays, addDays, Function.iterate_succ_apply']

/-- On a well-formed date, the JavaScript day-setter realizes the
specification-side day shift. -/
theorem setDatePlus_eq_addDays (d : CivilDate) (n : Nat) (hd : ValidDate d) :
    setDatePlus d n = addDays n d := by
  obtain ⟨h1, h2, _⟩ := hd
  rw [setDatePlus, normDate_add n d.year d.month d.day h1,
    normDate_base d.year d.month d.day h2]

/-- On a well-formed date, the JavaScript month-setter realizes the
specification-side calendar-month shift. -/
theorem setMonthPlusOne_eq_spec (d : CivilDate) (hd : ValidDate d) :
    setMonthPlusOne d = specAddOneMonth d := by
  obtain ⟨_, _, h3⟩ := hd
  rw [setMonthPlusOne, specAddOneMonth]
  by_cases h : d.month + 1 ≤ 11
  · rw [if_pos h]
    congr 1 <;> omega
  · rw [if_neg h]
    congr 1 <;> omega

/-- C1: for every well-formed date, `calculateNextDueDate` shifts by the
documented offset — daily +1 day, weekly +7 days, biweekly +14 days,
monthly +1 calendar month — and every recurrence type outside
daily/weekly/biweekly/monthly returns the input date unchanged. -/
theorem calculateNextDueDate_offsets (d : CivilDate) (hd : ValidDate d) :
    calculateNextDueDate d "daily" = addDays 1 d ∧
    calculateNextDueDate d "weekly" = addDays 7 d ∧
    calculateNextDueDate d "biweekly" = addDays 14 d ∧
    calculateNextDueDate d "monthly" = specAddOneMonth d ∧
    ∀ rt : String, rt ≠ "daily" → rt ≠ "weekly" → rt ≠ "biweekly" →
      rt ≠ "monthly" → calculateNextDueDate d rt = d := by
  refine ⟨?_, ?_, ?_, ?_, ?_⟩
  · rw [show calculateNextDueDate d "daily" = setDatePlus d 1 from rfl]
    exact setDatePlus_eq_addDays d 1 hd
  · rw [show calculateNextDueDate d "weekly" = setDatePlus d 7 from rfl]
    exact setDatePlus_eq_addDays d 7 hd
  · rw [show calculateNextDueDate d "biweekly" = setDatePlus d 14 from rfl]
    exact setDatePlus_eq_addDays d 14 hd
  · rw [show calculateNextDueDate d "monthly" = setMonthPlusOne d from rfl]
    exact setMonthPlusOne_eq_spec d hd
  · intro rt h1 h2 h3 h4
    unfold calculateNextDueDate
    split
    · exact absurd rfl h1
    · exact absurd rfl h2
    · exact absurd rfl h3
    · exact absurd rfl h4
    · rfl

/-- Witness for C1 at the concrete date 2024-01-01 (month index 0). -/
theorem calculateNextDueDate_offsets_witness :
    ValidDate ⟨2024, 0, 1⟩ ∧
      calculateNextDueDate ⟨2024, 0, 1⟩ "weekly" = addDays 7 ⟨2024, 0, 1⟩ :=
  ⟨by decide, (calculateNextDueDate_offsets ⟨2024, 0, 1⟩ (by decide)).2.1⟩

/-- Day-granularity order on civil dates: lexicographic on
(year, month, day), modelling the timestamp order used by the route
handlers when comparing ISO date strings. -/
def dateLe (a b : CivilDate) : Bool :=
  a.year < b.year ||
    (a.year == b.year &&
      (a.month < b.month || (a.month == b.month && a.day ≤ b.day)))

/-- Strict day-granularity order on civil dates. -/
def dateLt (a b : CivilDate) : Bool :=
  a.year < b.year ||
    (a.year == b.year &&
      (a.month < b.month || (a.month == b.month && a.day < b.day)))

/-- A subtask: title plus completion flag.  The randomly generated
object identifiers of subtasks are abstracted away. -/
structure Subtask where
  title : String
  completed : Bool
deriving DecidableEq, Repr

/-- A recurrence rule attached to a task. -/
structure Recurrence where
  type : String
  endDate : Option CivilDate
  lastGenerated : Option CivilDate
deriving DecidableEq, Repr

/-- One entry of a task's append-only activity log.  The randomly
generated entry identifiers are abstracted away. -/
structure ActivityEntry where
  userId : String
  userName : String
  action : String
  details : String
  timestamp : CivilDate
deriving DecidableEq, Repr

/-- A task document of the v5projects collection.  Attachments and
comments are kept opaque; `id` stands for the document identifier. -/
structure Project where
  id : Nat
  departmentId : String
  title : String
  description : String
  status : String
  priority : String
  assigneeId : Option String
  assigneeIds : List String
  createdBy : String
  dueDate : Option CivilDate
  labels : List String
  subtasks : List Subtask
  attachments : List String
  comments : List String
  activityLog : List ActivityEntry
  estimatedHours : Option Nat
  loggedHours : Nat
  blockedBy : List String
  recurrence : Option Recurrence
  parentRecurringId : Option Nat
  order : Nat
  createdAt : CivilDate
  updatedAt : CivilDate
  previousStatus : Option String
  archivedAt : Option CivilDate
  archivedBy : Option String
deriving DecidableEq, Repr

/-- The task collection together with the supply of fresh document
identifiers. -/
structure Store where
  tasks : List Project
  nextId : Nat
deriving DecidableEq, Repr

/-- Selection filter of the recurrence generator: recurrence present
with a type other than none, status done, and the end date (when
present) not yet passed at `now`. -/
def isDueRecurring (now : CivilDate) (t : Project) : Bool :=
  match t.recurrence with
  | none => false
  | some r =>
      r.type ≠ "none" && t.status == "done" &&
        (match r.endDate with
         | none => true
         | some e => dateLe now e)

/-- The in-loop expiry check of the generator: skip a task whose
computed next due date lies strictly beyond its recurrence end date. -/
def recurrenceExpired (now : CivilDate) (t : Project) (r : Recurrence) : Bool :=
  match r.endDate with
  | none => false
  | some e => dateLt e (calculateNextDueDate (t.dueDate.getD now) r.type)

/-- Order value for a task spawned into the todo column of a
department: one past the maximum existing order there, or 0 when the
column is empty. -/
def nextOrderFor (tasks : List Project) (deptId : String) : Nat :=
  let col := tasks.filter fun t => t.departmentId == deptId && t.status == "todo"
  match col with
  | [] => 0
  | _ => (col.foldl (fun acc t => max acc t.order) 0) + 1

/-- The new task document built by the generator from the origin task
`t` (with rule `r`): title, description, priority, assignees, labels
and subtasks copied, subtask completion reset, status reset to todo,
due date advanced, logged hours zeroed, a system-created activity
entry, and a back-reference to the origin. -/
def spawnTask (now : CivilDate) (t : Project) (r : Recurrence) (freshId ord : Nat) : Project :=
  { id := freshId
    departmentId := t.departmentId
    title := t.title
    description := t.description
    status := "todo"
    priority := t.priority
    assigneeId := t.assigneeId
    assigneeIds := t.assigneeIds
    createdBy := t.createdBy
    dueDate := some (calculateNextDueDate (t.dueDate.getD now) r.type)
    labels := t.labels
    subtasks := t.subtasks.map fun s => { title := s.title, completed := false }
    attachments := []
    comments := []
    activityLog :=
      [{ userId := "system", userName := "System", action := "created",
         details := "Recurring task auto-generated from " ++ t.title,
         timestamp := now }]
    estimatedHours := t.estimatedHours
    loggedHours := 0
    blockedBy := t.blockedBy
    recurrence := t.recurrence
    parentRecurringId := some t.id
    order := ord
    createdAt := now
    updatedAt := now
    previousStatus := none
    archivedAt := none
    archivedBy := none }

/-- Stamp applied to the origin task after a successful spawn: set
recurrence.lastGenerated and metadata.updatedAt to `now`. -/
def stampTask (now : CivilDate) (t : Project) : Project :=
  { t with
    recurrence := t.recurrence.map fun r => { r with lastGenerated := some now }
    updatedAt := now }

/-- One iteration of the generator loop over a selected task `t`:
either skip (recurrence expired) or insert the spawned task and stamp
the origin. -/
def processStep (now : CivilDate) (st : Store) (t : Project) : Store :=
  match t.recurrence with
  | none => st
  | some r =>
      if recurrenceExpired now t r then st
      else
        let nt := spawnTask now t r st.nextId (nextOrderFor st.tasks t.departmentId)
        { tasks :=
            (st.tasks.map fun u => if u.id == t.id then stampTask now u else u)
              ++ [nt]
          nextId := st.nextId + 1 }

/-- Embedding of the recurring-task generation endpoint: snapshot the
selected tasks, then fold the loop body over them. -/
def processRecurringTasks (now : CivilDate) (st : Store) : Store :=
  (st.tasks.filter (isDueRecurring now)).foldl (processStep now) st

/-- An authenticated caller as derived from the bearer token. -/
structure UserInfo where
  userId : String
  userName : String
  isSuperUser : Bool
deriving DecidableEq, Repr

/-- A department document: the admin and member reference lists plus
its update timestamp. -/
structure Department where
  adminIds : List String
  memberIds : List String
  updatedAt : CivilDate
deriving DecidableEq, Repr

/-- Embedding of `canManageDepartment`: superusers manage everything,
otherwise the caller must appear in the department's admin list.  The
`dept` argument stands for the department referenced by the task at
hand. -/
def canManageDepartment (u : UserInfo) (dept : Department) : Bool :=
  u.isSuperUser || dept.adminIds.contains u.userId

/-- Assignee test of the update route: the single assignee reference or
membership in the assignee list. -/
def isAssigneeOf (u : UserInfo) (t : Project) : Bool :=
  t.assigneeId == some u.userId || t.assigneeIds.contains u.userId

/-- Body of a task-update request.  An outer `none` models an absent
(undefined) field; for fields that accept null, the inner Option is the
nullable value. -/
structure UpdateRequest where
  title : Option String
  description : Option String
  status : Option String
  priority : Option String
  assigneeId : Option (Option String)
  assigneeIds : Option (List String)
  dueDate : Option (Option CivilDate)
  labels : Option (List String)
  subtasks : Option (List Subtask)
  estimatedHours : Option (Option Nat)
  loggedHours : Option Nat
  blockedBy : Option (List String)
deriving DecidableEq, Repr

/-- Embedding of the update route (PUT): permission gate, then the
role-dependent field updates.  Admins may change every field; assignees
may change subtasks and logged hours; both may change the status.
Returns the HTTP status code and the stored task after the request. -/
def updateProject (u : UserInfo) (dept : Department) (req : UpdateRequest)
    (now : CivilDate) (t : Project) : Nat × Project :=
  let canManage := canManageDepartment u dept
  let isAsg := isAssigneeOf u t
  if !canManage && !isAsg then (403, t)
  else
    let titleEntries :=
      match req.title with
      | some ti =>
          if canManage && ti != t.title then
            [{ userId := u.userId, userName := u.userName, action := "updated",
               details := "Changed title to " ++ ti.trim,
               timestamp := now : ActivityEntry }]
          else []
      | none => []
    let priorityEntries :=
      match req.priority with
      | some pr =>
          if canManage && pr != t.priority then
            [{ userId := u.userId, userName := u.userName, action := "updated",
               details := "Changed priority to " ++ pr,
               timestamp := now : ActivityEntry }]
          else []
      | none => []
    let assigneeEntries :=
      match req.assigneeId with
      | some a =>
          if canManage && a != t.assigneeId then
            [{ userId := u.userId, userName := u.userName, action := "assigned",
               details := if a.isSome then "Assigned task" else "Unassigned task",
               timestamp := now : ActivityEntry }]
          else []
      | none => []
    let statusEntries :=
      match req.status with
      | some s =>
          if s != t.status then
            [{ userId := u.userId, userName := u.userName, action := "moved",
               details := "Moved from " ++ t.status ++ " to " ++ s,
               timestamp := now : ActivityEntry }]
          else []
      | none => []
    let t1 : Project :=
      { t with
        title :=
          match req.title with
          | some ti => if canManage && ti != t.title then ti.trim else t.title
          | none => t.title
        description :=
          match req.description with
          | some de => if canManage then de.trim else t.description
          | none => t.description
        priority :=
          match req.priority with
          | some pr => if canManage && pr != t.priority then pr else t.priority
          | none => t.priority
        assigneeId :=
          match req.assigneeId with
          | some a => if canManage && a != t.assigneeId then a else t.assigneeId
          | none => t.assigneeId
        assigneeIds :=
          match req.assigneeIds with
          | some l => if canManage then l else t.assigneeIds
          | none => t.assigneeIds
        dueDate :=
          match req.dueDate with
          | some dd => if canManage then dd else t.dueDate
          | none => t.dueDate
        labels :=
          match req.labels with
          | some l => if canManage then l else t.labels
          | none => t.labels
        subtasks :=
          match req.subtasks with
          | some l => if canManage || isAsg then l else t.subtasks
          | none => t.subtasks
        estimatedHours :=
          match req.estimatedHours with
          | some e => if canManage then e else t.estimatedHours
          | none => t.estimatedHours
        blockedBy :=
          match req.blockedBy with
          | some l => if canManage then l else t.blockedBy
          | none => t.blockedBy
        loggedHours :=
          match req.loggedHours with
          | some lh => if isAsg then lh else t.loggedHours
          | none => t.loggedHours
        status :=
          match req.status with
          | some s => if s != t.status then s else t.status
          | none => t.status
        updatedAt := now
        activityLog :=
          t.activityLog ++
            (titleEntries ++ priorityEntries ++ assigneeEntries ++ statusEntries) }
    (200, t1)

/-- Body of a reorder request. -/
structure ReorderRequest where
  newStatus : Option String
  newOrder : Option Nat
deriving DecidableEq, Repr

/-- Embedding of the reorder route (PUT): permission gate -- note that
here an assignee is the single `assigneeId` reference only -- then the
optional status and order writes. -/
def reorderProject (u : UserInfo) (dept : Department) (req : ReorderRequest)
    (now : CivilDate) (t : Project) : Nat × Project :=
  let canManage := canManageDepartment u dept
  let isAsg := t.assigneeId == some u.userId
  if !canManage && !isAsg then (403, t)
  else
    (200,
      { t with
        status := match req.newStatus with | some s => s | none => t.status
        order := match req.newOrder with | some o => o | none => t.order
        updatedAt := now })

/-- The archive (soft-delete) write of the delete route: status moved
to archived, previous status and archive metadata recorded, an
activity-log entry appended. -/
def archiveTask (now : CivilDate) (u : UserInfo) (t : Project) : Project :=
  { t with
    status := "archived"
    previousStatus := some t.status
    archivedAt := some now
    archivedBy := some u.userId
    updatedAt := now
    activityLog :=
      t.activityLog ++
        [{ userId := u.userId, userName := u.userName, action := "archived",
           details := "Project moved to drafts", timestamp := now }] }

/-- Embedding of the delete route (DELETE) over the whole store:
look up the task, gate on department admin rights, then either remove
the document permanently or archive it in place.  Returns the HTTP
status code and the store after the request. -/
def deleteProject (u : UserInfo) (dept : Department) (permanent : Bool)
    (now : CivilDate) (id : Nat) (st : Store) : Nat × Store :=
  match st.tasks.find? (fun t => t.id == id) with
  | none => (404, st)
  | some _ =>
      if !canManageDepartment u dept then (403, st)
      else if permanent then
        (200, { st with tasks := st.tasks.eraseP (fun v => v.id == id) })
      else
        (200,
          { st with
            tasks := st.tasks.map fun v =>
              if v.id == id then archiveTask now u v else v })

/-- Embedding of the restore route (POST) on a single task: only
archived tasks can be restored; the status returns to the recorded
previous status when that is a non-empty string (the JavaScript
truthiness test) and to backlog otherwise, and the archive metadata is
removed. -/
def restoreProject (u : UserInfo) (dept : Department) (now : CivilDate)
    (t : Project) : Nat × Project :=
  if t.status != "archived" then (400, t)
  else if !canManageDepartment u dept then (403, t)
  else
    let rs :=
      match t.previousStatus with
      | some ps => if ps == "" then "backlog" else ps
      | none => "backlog"
    (200,
      { t with
        status := rs
        previousStatus := none
        archivedAt := none
        archivedBy := none
        updatedAt := now
        activityLog :=
          t.activityLog ++
            [{ userId := u.userId, userName := u.userName, action := "restored",
               details := "Project restored from drafts to " ++ rs,
               timestamp := now }] })

/-- Set-style array add used by the department membership routes
(the addToSet update operator): append the value only when it is not
already present. -/
def addToSet (l : List String) (x : String) : List String :=
  if x ∈ l then l else l ++ [x]

/-- Embedding of the add-admin route (POST) write: idempotent add to
the admin list plus the timestamp refresh. -/
def addDepartmentAdmin (now : CivilDate) (d : Department) (userId : String) :
    Department :=
  { d with adminIds := addToSet d.adminIds userId, updatedAt := now }

/-- Modelled from the spec: the member-add endpoint of the department
membership API is not among the sources; per the specification the
member list is kept duplicate-free by the same idempotent set-style
add used for admins. -/
def addDepartmentMember (now : CivilDate) (d : Department) (userId : String) :
    Department :=
  { d with memberIds := addToSet d.memberIds userId, updatedAt := now }


/-! ## Concrete fixtures used by witnesses and counterexamples -/

/-- 2024-01-01. -/
def day01 : CivilDate := ⟨2024, 0, 1⟩

/-- 2024-01-02. -/
def day02 : CivilDate := ⟨2024, 0, 2⟩

/-- 2024-01-15, the invocation time of the concrete generator runs. -/
def now0 : CivilDate := ⟨2024, 0, 15⟩

/-- A weekly recurrence without end date. -/
def recW : Recurrence := { type := "weekly", endDate := none, lastGenerated := none }

/-- A weekly recurrence ending 2024-01-05. -/
def recWEnd : Recurrence :=
  { type := "weekly", endDate := some ⟨2024, 0, 5⟩, lastGenerated := none }

/-- A completed weekly recurring task due 2024-01-01. -/
def taskR : Project :=
  { id := 0, departmentId := "d1", title := "t", description := "",
    status := "done", priority := "medium", assigneeId := none, assigneeIds := [],
    createdBy := "u1", dueDate := some day01, labels := [],
    subtasks := [{ title := "s1", completed := true }], attachments := [],
    comments := [], activityLog := [], estimatedHours := none, loggedHours := 0,
    blockedBy := [], recurrence := some recW, parentRecurringId := none,
    order := 0, createdAt := day02, updatedAt := day02, previousStatus := none,
    archivedAt := none, archivedBy := none }

/-- The same task with the recurrence already past its end date. -/
def taskE : Project := { taskR with id := 5, recurrence := some recWEnd }

/-- A single-task store holding the recurring task. -/
def st0 : Store := { tasks := [taskR], nextId := 1 }

/-! ## The recurrence generator (claims about spawning) -/

/-- The generator loop body on a non-expired recurring task: insert the
spawned task and stamp the origin. -/
theorem processStep_spawn (now : CivilDate) (st : Store) (t : Project)
    (r : Recurrence) (hr : t.recurrence = some r)
    (hexp : recurrenceExpired now t r = false) :
    processStep now st t =
      { tasks :=
          (st.tasks.map fun u => if u.id == t.id then stampTask now u else u)
            ++ [spawnTask now t r st.nextId (nextOrderFor st.tasks t.departmentId)]
        nextId := st.nextId + 1 } := by
  simp only [processStep, hr]
  simp [hexp]

/-- C2 (amended): a selected, non-expired recurring task makes the
generator insert one new task copying title, description, priority,
assignees, labels and subtasks (completion reset), with status reset to
the todo column, order one past the column's maximum (0 on an empty
column), the advanced due date, and a back-reference; the origin gets
recurrence.lastGenerated and metadata.updatedAt stamped and is
otherwise unchanged. -/
theorem processStep_spawn_spec (now : CivilDate) (st : Store) (t : Project)
    (r : Recurrence) (hr : t.recurrence = some r)
    (_hsel : isDueRecurring now t = true)
    (hexp : recurrenceExpired now t r = false) :
    (processStep now st t).tasks =
      (st.tasks.map fun u => if u.id == t.id then stampTask now u else u)
        ++ [spawnTask now t r st.nextId (nextOrderFor st.tasks t.departmentId)] ∧
    (spawnTask now t r st.nextId (nextOrderFor st.tasks t.departmentId)).title
        = t.title ∧
    (spawnTask now t r st.nextId (nextOrderFor st.tasks t.departmentId)).description
        = t.description ∧
    (spawnTask now t r st.nextId (nextOrderFor st.tasks t.departmentId)).priority
        = t.priority ∧
    (spawnTask now t r st.nextId (nextOrderFor st.tasks t.departmentId)).assigneeId
        = t.assigneeId ∧
    (spawnTask now t r st.nextId (nextOrderFor st.tasks t.departmentId)).assigneeIds
        = t.assigneeIds ∧
    (spawnTask now t r st.nextId (nextOrderFor st.tasks t.departmentId)).labels
        = t.labels ∧
    (spawnTask now t r st.nextId (nextOrderFor st.tasks t.departmentId)).subtasks
        = t.subtasks.map (fun s => { title := s.title, completed := false }) ∧
    (∀ s ∈ (spawnTask now t r st.nextId
        (nextOrderFor st.tasks t.departmentId)).subtasks, s.completed = false) ∧
    (spawnTask now t r st.nextId (nextOrderFor st.tasks t.departmentId)).status
        = "todo" ∧
    (spawnTask now t r st.nextId (nextOrderFor st.tasks t.departmentId)).dueDate
        = some (calculateNextDueDate (t.dueDate.getD now) r.type) ∧
    (spawnTask now t r st.nextId
        (nextOrderFor st.tasks t.departmentId)).parentRecurringId = some t.id ∧
    ((st.tasks.filter fun u =>
        u.departmentId == t.departmentId && u.status == "todo") = [] →
      (spawnTask now t r st.nextId (nextOrderFor st.tasks t.departmentId)).order
          = 0) ∧
    (∀ c cs, (st.tasks.filter fun u =>
        u.departmentId == t.departmentId && u.status == "todo") = c :: cs →
      (spawnTask now t r st.nextId (nextOrderFor st.tasks t.departmentId)).order
          = ((c :: cs).foldl (fun acc u => max acc u.order) 0) + 1) ∧
    (stampTask now t).recurrence = some { r with lastGenerated := some now } ∧
    (stampTask now t).updatedAt = now ∧
    (stampTask now t).id = t.id ∧
    (stampTask now t).title = t.title ∧
    (stampTask now t).description = t.description ∧
    (stampTask now t).status = t.status ∧
    (stampTask now t).priority = t.priority ∧
    (stampTask now t).assigneeId = t.assigneeId ∧
    (stampTask now t).assigneeIds = t.assigneeIds ∧
    (stampTask now t).dueDate = t.dueDate ∧
    (stampTask now t).labels = t.labels ∧
    (stampTask now t).subtasks = t.subtasks ∧
    (stampTask now t).order = t.order ∧
    (stampTask now t).activityLog = t.activityLog := by
  refine ⟨by rw [processStep_spawn now st t r hr hexp], rfl, rfl, rfl, rfl, rfl,
    rfl, rfl, ?_, rfl, rfl, rfl, ?_, ?_, ?_, rfl, rfl, rfl, rfl, rfl, rfl, rfl,
    rfl, rfl, rfl, rfl, rfl, rfl⟩
  · intro s hs
    simp only [spawnTask, List.mem_map] at hs
    obtain ⟨a, _, ha⟩ := hs
    rw [← ha]
  · intro hcol
    simp [spawnTask, nextOrderFor, hcol]
  · intro c cs hcol
    simp [spawnTask, nextOrderFor, hcol]
  · simp [stampTask, hr]

/-- C2 (counterexample to the claim as stated): on the concrete store
`st0` the generator changes the origin task beyond stamping
recurrence.lastGenerated -- its metadata.updatedAt moves to the run
time -- and the task spawned into an empty todo column gets order 0,
which is not one past any existing order. -/
theorem processStep_origin_updatedAt_counterexample :
    ((processRecurringTasks now0 st0).tasks.map Project.updatedAt)[0]? = some now0 ∧
    taskR.updatedAt ≠ now0 ∧
    ((processRecurringTasks now0 st0).tasks.map Project.order)[1]? = some 0 ∧
    (st0.tasks.filter fun u =>
      u.departmentId == taskR.departmentId && u.status == "todo") = [] := by
  decide

/-- Witness for C2 (amended) at the concrete recurring task. -/
theorem processStep_spawn_spec_witness :
    taskR.recurrence = some recW ∧
    isDueRecurring now0 taskR = true ∧
    recurrenceExpired now0 taskR recW = false ∧
    (processStep now0 st0 taskR).tasks =
      (st0.tasks.map fun u => if u.id == taskR.id then stampTask now0 u else u)
        ++ [spawnTask now0 taskR recW st0.nextId
              (nextOrderFor st0.tasks taskR.departmentId)] :=
  ⟨by decide, by decide, by decide,
    (processStep_spawn_spec now0 st0 taskR recW rfl (by decide) (by decide)).1⟩

/-- C3: a recurring task whose end date lies strictly before the
computed next due date is skipped by the generator loop -- the store is
left untouched, no insert happens. -/
theorem processStep_skips_expired (now : CivilDate) (st : Store) (t : Project)
    (r : Recurrence) (e : CivilDate) (hr : t.recurrence = some r)
    (he : r.endDate = some e)
    (hlt : dateLt e (calculateNextDueDate (t.dueDate.getD now) r.type) = true) :
    processStep now st t = st := by
  simp only [processStep, hr]
  have hx : recurrenceExpired now t r = true := by
    simp [recurrenceExpired, he, hlt]
  simp [hx]

/-- Witness for C3: the task due 2024-01-01 with weekly recurrence
ending 2024-01-05 computes the next due date 2024-01-08 and is
skipped. -/
theorem processStep_skips_expired_witness :
    recWEnd.endDate = some ⟨2024, 0, 5⟩ ∧
    dateLt ⟨2024, 0, 5⟩
      (calculateNextDueDate (taskE.dueDate.getD now0) recWEnd.type) = true ∧
    processStep now0 st0 taskE = st0 :=
  ⟨by decide, by decide,
    processStep_skips_expired now0 st0 taskE recWEnd ⟨2024, 0, 5⟩ rfl rfl
      (by decide)⟩

/-- C5 (amended): stamping lastGenerated neither removes a still-done
origin from the generator's selection nor makes its recurrence expire,
so a second invocation before the origin leaves the done status spawns
again -- the generator is not idempotent within a completion cycle. -/
theorem stampTask_preserves_selection (now : CivilDate) (t : Project)
    (r : Recurrence) (hr : t.recurrence = some r)
    (hsel : isDueRecurring now t = true)
    (hexp : recurrenceExpired now t r = false) :
    isDueRecurring now (stampTask now t) = true ∧
    recurrenceExpired now (stampTask now t)
      { r with lastGenerated := some now } = false ∧
    (stampTask now t).status = t.status := by
  refine ⟨?_, ?_, rfl⟩
  · have h1 : isDueRecurring now (stampTask now t) = isDueRecurring now t := by
      simp [isDueRecurring, stampTask, hr]
    rw [h1, hsel]
  · have h2 : recurrenceExpired now (stampTask now t)
        { r with lastGenerated := some now } = recurrenceExpired now t r := by
      simp [recurrenceExpired, stampTask, hr]
    rw [h2, hexp]

/-- C5 (counterexample to the claim as stated): running the generator a
second time on the state produced by the first run -- the origin still
has status done -- inserts a further instance of the same origin. -/
theorem processRecurringTasks_rerun_duplicates :
    (processRecurringTasks now0 st0).tasks.length = 2 ∧
    (processRecurringTasks now0 (processRecurringTasks now0 st0)).tasks.length
      = 3 ∧
    ((processRecurringTasks now0
        (processRecurringTasks now0 st0)).tasks.map
          Project.parentRecurringId).getLast? = some (some taskR.id) := by
  decide

/-- Witness for C5 (amended) at the concrete recurring task. -/
theorem stampTask_preserves_selection_witness :
    isDueRecurring now0 taskR = true ∧
    recurrenceExpired now0 taskR recW = false ∧
    isDueRecurring now0 (stampTask now0 taskR) = true :=
  ⟨by decide, by decide,
    (stampTask_preserves_selection now0 taskR recW rfl (by decide)
      (by decide)).1⟩

/-! ## Endpoint fixtures -/

/-- A superuser. -/
def uA : UserInfo := { userId := "admin1", userName := "Admin", isSuperUser := true }

/-- A plain user who administers no department. -/
def uB : UserInfo := { userId := "u2", userName := "Bea", isSuperUser := false }

/-- A department administered by admin1 with two members. -/
def deptA : Department :=
  { adminIds := ["admin1"], memberIds := ["u2", "u3"], updatedAt := day02 }

/-- A task whose single assignee is u2. -/
def taskA6 : Project :=
  { taskR with id := 7, assigneeId := some "u2", recurrence := none }

/-- A task listing u2 only in its assigneeIds list. -/
def taskA10 : Project :=
  { taskR with id := 8, assigneeIds := ["u2"], recurrence := none }

/-- A task carrying the degenerate empty-string status. -/
def taskEmptyStatus : Project :=
  { taskR with id := 9, status := "", recurrence := none }

/-- An update request that tries to change both the title and the
status. -/
def reqC6 : UpdateRequest :=
  { title := some "hack", description := none, status := some "doing",
    priority := none, assigneeId := none, assigneeIds := none, dueDate := none,
    labels := none, subtasks := none, estimatedHours := none,
    loggedHours := none, blockedBy := none }

/-- A reorder request moving a task to another column and position. -/
def rreq0 : ReorderRequest := { newStatus := some "doing", newOrder := some 3 }

/-! ## Permission helpers -/

theorem canManageDepartment_eq_false (u : UserInfo) (dept : Department)
    (hsu : u.isSuperUser = false) (hadm : u.userId ∉ dept.adminIds) :
    canManageDepartment u dept = false := by
  simp [canManageDepartment, hsu, hadm]

/-- Behaviour of the update route for a caller who cannot manage the
department but is an assignee: admin-only fields are left untouched
while a requested status is applied. -/
theorem updateProject_assignee_only (u : UserInfo) (dept : Department)
    (req : UpdateRequest) (now : CivilDate) (t : Project)
    (hcm : canManageDepartment u dept = false)
    (hasg : isAssigneeOf u t = true) :
    (updateProject u dept req now t).1 = 200 ∧
    (updateProject u dept req now t).2.title = t.title ∧
    (updateProject u dept req now t).2.description = t.description ∧
    (updateProject u dept req now t).2.priority = t.priority ∧
    (updateProject u dept req now t).2.assigneeId = t.assigneeId ∧
    (updateProject u dept req now t).2.assigneeIds = t.assigneeIds ∧
    (updateProject u dept req now t).2.dueDate = t.dueDate ∧
    (updateProject u dept req now t).2.labels = t.labels ∧
    (updateProject u dept req now t).2.estimatedHours = t.estimatedHours ∧
    (updateProject u dept req now t).2.blockedBy = t.blockedBy ∧
    ∀ s, req.status = some s → (updateProject u dept req now t).2.status = s := by
  refine ⟨?_, ?_, ?_, ?_, ?_, ?_, ?_, ?_, ?_, ?_, ?_⟩
  · simp [updateProject, hcm, hasg]
  · rcases h : req.title with _ | ti <;> simp [updateProject, hcm, hasg, h]
  · rcases h : req.description with _ | de <;> simp [updateProject, hcm, hasg, h]
  · rcases h : req.priority with _ | pr <;> simp [updateProject, hcm, hasg, h]
  · rcases h : req.assigneeId with _ | a <;> simp [updateProject, hcm, hasg, h]
  · rcases h : req.assigneeIds with _ | l <;> simp [updateProject, hcm, hasg, h]
  · rcases h : req.dueDate with _ | dd <;> simp [updateProject, hcm, hasg, h]
  · rcases h : req.labels with _ | l <;> simp [updateProject, hcm, hasg, h]
  · rcases h : req.estimatedHours with _ | e <;>
      simp [updateProject, hcm, hasg, h]
  · rcases h : req.blockedBy with _ | l <;> simp [updateProject, hcm, hasg, h]
  · intro s hs
    rcases eq_or_ne s t.status with hss | hss
    · subst hss
      simp [updateProject, hcm, hasg, hs]
    · simp [updateProject, hcm, hasg, hs, hss]

/-! ## Archive / restore (C4) -/

/-- C4 (amended): archiving a non-archived task and restoring it
returns the status to the pre-archive value whenever that value is a
non-empty string, and clears previousStatus, archivedAt and
archivedBy. -/
theorem archive_then_restore (u1 u2 : UserInfo) (dept : Department)
    (now1 now2 : CivilDate) (t : Project)
    (hperm : canManageDepartment u2 dept = true)
    (_hna : t.status ≠ "archived") (hne : t.status ≠ "") :
    (restoreProject u2 dept now2 (archiveTask now1 u1 t)).1 = 200 ∧
    (restoreProject u2 dept now2 (archiveTask now1 u1 t)).2.status = t.status ∧
    (restoreProject u2 dept now2 (archiveTask now1 u1 t)).2.previousStatus
        = none ∧
    (restoreProject u2 dept now2 (archiveTask now1 u1 t)).2.archivedAt = none ∧
    (restoreProject u2 dept now2 (archiveTask now1 u1 t)).2.archivedBy
        = none := by
  refine ⟨?_, ?_, ?_, ?_, ?_⟩ <;>
    simp [restoreProject, archiveTask, hperm, hne]

/-- C4 (counterexample to the claim as stated): a task whose status is
the empty string is archived with previousStatus recorded as the empty
string, and the restore's JavaScript truthiness fallback sends it to
backlog instead of the pre-archive value. -/
theorem archive_restore_empty_status_counterexample :
    taskEmptyStatus.status ≠ "archived" ∧
    (restoreProject uA deptA now0
        (archiveTask day02 uA taskEmptyStatus)).2.status = "backlog" ∧
    taskEmptyStatus.status ≠ "backlog" := by
  decide

/-- Witness for C4 (amended) at a concrete done task. -/
theorem archive_then_restore_witness :
    canManageDepartment uA deptA = true ∧
    taskR.status ≠ "archived" ∧
    taskR.status ≠ "" ∧
    (restoreProject uA deptA now0 (archiveTask day02 uA taskR)).2.status
        = taskR.status :=
  ⟨by decide, by decide, by decide,
    (archive_then_restore uA uA deptA day02 now0 taskR (by decide) (by decide)
      (by decide)).2.1⟩

/-! ## Update / reorder permissions (C6, C7, C10) -/

/-- C6: a caller who is neither a superuser nor a department admin but
is an assignee of the task has a supplied title ignored, every other
admin-only field left untouched, and a supplied status applied. -/
theorem assignee_update_field_policy (u : UserInfo) (dept : Department)
    (req : UpdateRequest) (now : CivilDate) (t : Project)
    (hsu : u.isSuperUser = false) (hadm : u.userId ∉ dept.adminIds)
    (hasg : isAssigneeOf u t = true) :
    (updateProject u dept req now t).1 = 200 ∧
    (updateProject u dept req now t).2.title = t.title ∧
    (updateProject u dept req now t).2.description = t.description ∧
    (updateProject u dept req now t).2.priority = t.priority ∧
    (updateProject u dept req now t).2.assigneeId = t.assigneeId ∧
    (updateProject u dept req now t).2.assigneeIds = t.assigneeIds ∧
    (updateProject u dept req now t).2.dueDate = t.dueDate ∧
    (updateProject u dept req now t).2.labels = t.labels ∧
    (updateProject u dept req now t).2.estimatedHours = t.estimatedHours ∧
    (updateProject u dept req now t).2.blockedBy = t.blockedBy ∧
    ∀ s, req.status = some s → (updateProject u dept req now t).2.status = s :=
  updateProject_assignee_only u dept req now t
    (canManageDepartment_eq_false u dept hsu hadm) hasg

/-- Witness for C6: u2 as pure assignee sends a title and a status; the
title stays, the status lands. -/
theorem assignee_update_field_policy_witness :
    uB.isSuperUser = false ∧
    uB.userId ∉ deptA.adminIds ∧
    isAssigneeOf uB taskA6 = true ∧
    reqC6.title = some "hack" ∧
    (updateProject uB deptA reqC6 now0 taskA6).2.title = taskA6.title ∧
    (updateProject uB deptA reqC6 now0 taskA6).2.status = "doing" := by
  have h := assignee_update_field_policy uB deptA reqC6 now0 taskA6 rfl
    (by decide) (by decide)
  exact ⟨rfl, by decide, by decide, rfl, h.2.1,
    h.2.2.2.2.2.2.2.2.2.2 "doing" rfl⟩

/-- C7: an authenticated caller who is not a superuser, not an admin of
the department and not an assignee is denied with 403 by the update,
reorder and delete routes, with the stored data unchanged. -/
theorem outsider_mutations_denied (u : UserInfo) (dept : Department)
    (t : Project) (req : UpdateRequest) (rreq : ReorderRequest) (perm : Bool)
    (now : CivilDate) (tid : Nat) (st : Store)
    (hsu : u.isSuperUser = false) (hadm : u.userId ∉ dept.adminIds)
    (hne : t.assigneeId ≠ some u.userId) (hmem : u.userId ∉ t.assigneeIds) :
    updateProject u dept req now t = (403, t) ∧
    reorderProject u dept rreq now t = (403, t) ∧
    ((st.tasks.find? fun v => v.id == tid).isSome = true →
      deleteProject u dept perm now tid st = (403, st)) := by
  have hcm := canManageDepartment_eq_false u dept hsu hadm
  have hasg : isAssigneeOf u t = false := by
    simp [isAssigneeOf, hne, hmem]
  refine ⟨?_, ?_, ?_⟩
  · simp [updateProject, hcm, hasg]
  · simp [reorderProject, hcm, hne]
  · intro hfind
    obtain ⟨t0, ht0⟩ := Option.isSome_iff_exists.mp hfind
    simp [deleteProject, ht0, hcm]

/-- Witness for C7: u2 against a task without any assignee. -/
theorem outsider_mutations_denied_witness :
    uB.isSuperUser = false ∧
    uB.userId ∉ deptA.adminIds ∧
    taskR.assigneeId ≠ some uB.userId ∧
    uB.userId ∉ taskR.assigneeIds ∧
    updateProject uB deptA reqC6 now0 taskR = (403, taskR) ∧
    reorderProject uB deptA rreq0 now0 taskR = (403, taskR) := by
  have h := outsider_mutations_denied uB deptA taskR reqC6 rreq0 true now0 0 st0
    rfl (by decide) (by decide) (by decide)
  exact ⟨rfl, by decide, by decide, by decide, h.1, h.2.1⟩

/-- C10: a caller appearing only in assigneeIds is rejected by the
reorder route, which tests the single assigneeId reference only, while
the update route accepts the same caller as an assignee and applies a
status change. -/
theorem reorder_update_assignee_divergence (u : UserInfo) (dept : Department)
    (t : Project) (rreq : ReorderRequest) (ureq : UpdateRequest) (now : CivilDate)
    (hsu : u.isSuperUser = false) (hadm : u.userId ∉ dept.adminIds)
    (hne : t.assigneeId ≠ some u.userId) (hmem : u.userId ∈ t.assigneeIds) :
    reorderProject u dept rreq now t = (403, t) ∧
    (updateProject u dept ureq now t).1 = 200 ∧
    ∀ s, ureq.status = some s → (updateProject u dept ureq now t).2.status = s := by
  have hcm := canManageDepartment_eq_false u dept hsu hadm
  have hasg : isAssigneeOf u t = true := by
    simp [isAssigneeOf, hmem]
  have h := updateProject_assignee_only u dept ureq now t hcm hasg
  exact ⟨by simp [reorderProject, hcm, hne], h.1, h.2.2.2.2.2.2.2.2.2.2⟩

/-- Witness for C10: u2, listed only in assigneeIds, is denied by
reorder but moves the task via update. -/
theorem reorder_update_assignee_divergence_witness :
    taskA10.assigneeId ≠ some uB.userId ∧
    uB.userId ∈ taskA10.assigneeIds ∧
    reorderProject uB deptA rreq0 now0 taskA10 = (403, taskA10) ∧
    (updateProject uB deptA reqC6 now0 taskA10).2.status = "doing" := by
  have h := reorder_update_assignee_divergence uB deptA taskA10 rreq0 reqC6
    now0 rfl (by decide) (by decide) (by decide)
  exact ⟨by decide, by decide, h.1, h.2.2 "doing" rfl⟩

/-! ## Permanent delete guard (C8) -/

/-- C8 (divergence from the claim and the route's own comment): a
permanent-delete request on the non-archived done task succeeds and
removes the document -- the route never checks the archived status. -/
theorem permanent_delete_ignores_archive_guard :
    taskR.status ≠ "archived" ∧
    (deleteProject uA deptA true now0 taskR.id st0).1 = 200 ∧
    (deleteProject uA deptA true now0 taskR.id st0).2.tasks = [] := by
  decide

/-! ## Department membership lists (C9) -/

theorem addToSet_mem (l : List String) (x : String) (h : x ∈ l) :
    addToSet l x = l := by
  simp [addToSet, h]

theorem addToSet_nodup (l : List String) (x : String) (h : l.Nodup) :
    (addToSet l x).Nodup := by
  by_cases hx : x ∈ l
  · simpa [addToSet, hx] using h
  · simp [addToSet, hx, List.nodup_append, h]

theorem foldl_addToSet_nodup (ops : List String) :
    ∀ l : List String, l.Nodup → (ops.foldl addToSet l).Nodup := by
  induction ops with
  | nil =>
    intro l h
    simpa using h
  | cons o os ih =>
    intro l h
    simpa using ih _ (addToSet_nodup l o h)

theorem foldl_addDeptAdmin_adminIds (now : CivilDate) (ops : List String) :
    ∀ d : Department,
      (ops.foldl (addDepartmentAdmin now) d).adminIds
        = ops.foldl addToSet d.adminIds := by
  induction ops with
  | nil => intro d; rfl
  | cons o os ih =>
    intro d
    rw [List.foldl_cons, List.foldl_cons, ih]
    rfl

theorem foldl_addDeptMember_memberIds (now : CivilDate) (ops : List String) :
    ∀ d : Department,
      (ops.foldl (addDepartmentMember now) d).memberIds
        = ops.foldl addToSet d.memberIds := by
  induction ops with
  | nil => intro d; rfl
  | cons o os ih =>
    intro d
    rw [List.foldl_cons, List.foldl_cons, ih]
    rfl

/-- C9: adding an already-present user to a department's admin or
member list leaves the list unchanged, and any sequence of set-style
adds preserves duplicate-freeness of both lists. -/
theorem department_lists_set_invariant (now : CivilDate) (d : Department)
    (x : String) (ops : List String) :
    (x ∈ d.adminIds → (addDepartmentAdmin now d x).adminIds = d.adminIds) ∧
    (x ∈ d.memberIds → (addDepartmentMember now d x).memberIds = d.memberIds) ∧
    (d.adminIds.Nodup → (addDepartmentAdmin now d x).adminIds.Nodup) ∧
    (d.memberIds.Nodup → (addDepartmentMember now d x).memberIds.Nodup) ∧
    (d.adminIds.Nodup →
      ((ops.foldl (addDepartmentAdmin now) d).adminIds).Nodup) ∧
    (d.memberIds.Nodup →
      ((ops.foldl (addDepartmentMember now) d).memberIds).Nodup) := by
  refine ⟨?_, ?_, ?_, ?_, ?_, ?_⟩
  · intro h
    simp [addDepartmentAdmin, addToSet_mem _ _ h]
  · intro h
    simp [addDepartmentMember, addToSet_mem _ _ h]
  · intro h
    exact addToSet_nodup _ _ h
  · intro h
    exact addToSet_nodup _ _ h
  · intro h
    rw [foldl_addDeptAdmin_adminIds]
    exact foldl_addToSet_nodup _ _ h
  · intro h
    rw [foldl_addDeptMember_memberIds]
    exact foldl_addToSet_nodup _ _ h

/-- Witness for C9 at the concrete department. -/
theorem department_lists_set_invariant_witness :
    "admin1" ∈ deptA.adminIds ∧
    (addDepartmentAdmin now0 deptA "admin1").adminIds = deptA.adminIds ∧
    deptA.adminIds.Nodup ∧
    ((["u7", "u8", "u7"].foldl (addDepartmentAdmin now0) deptA).adminIds).Nodup := by
  have h := department_lists_set_invariant now0 deptA "admin1" ["u7", "u8", "u7"]
  exact ⟨by decide, h.1 (by decide), by decide, h.2.2.2.2.1 (by decide)⟩
